import Mathlib

/-! Igloo landing page: cursor tracker, line field and particle field.

A shallow embedding of the three effects of `src/App.js`:

* the cursor tracker (`handleMouseMove`, lines 12-20),
* the line field renderer (`drawLines`, lines 42-98),
* the particle field renderer (`Particle`, `animate`, lines 126-194).

JavaScript numbers are idealised as exact real numbers; `Math.sqrt` is
`Real.sqrt`, `Math.max` is `max`. Calls of `Math.random` read from an explicit
stream `rand : ℕ → ℝ`. Drawing on the 2D context is modelled by the list of
strokes a frame emits.
-/

noncomputable section

namespace Igloo

/-! ## Cursor tracker -/

/-- The cursor signal held in React state (`mousePosition`). -/
structure Signal where
  x : ℝ
  y : ℝ

/-- Initial value of `mousePosition`, the argument `x: 0, y: 0` of `useState`. -/
def Signal.origin : Signal := ⟨0, 0⟩

/-- Body of `handleMouseMove`: the signal handed to `setMousePosition`. -/
def handleMouseMove (clientX clientY innerWidth innerHeight : ℝ) : Signal :=
  let x := (clientX / innerWidth) * 2 - 1
  let y := (clientY / innerHeight) * 2 - 1
  { x := x, y := y }

/-! ## Line field renderer -/

/-- Constant `gridSize` of `drawLines`. -/
def gridSize : ℝ := 120

/-- Constant `lineLength` of `drawLines`. -/
def lineLength : ℝ := 15

/-- Constant `maxDistance` of `drawLines`. -/
def maxDistance : ℝ := 180

/-- Line 61: `intensity = 1 - (distance / maxDistance)`. -/
def intensity (distance : ℝ) : ℝ := 1 - (distance / maxDistance)

/-- Line 62: `alpha = Math.max(0.05, intensity * 0.6)`. -/
def alpha (distance : ℝ) : ℝ := max 0.05 (intensity distance * 0.6)

/-- Line 63: `lineWidth = Math.max(0.5, intensity * 1.5)`. -/
def lineWidth (distance : ℝ) : ℝ := max 0.5 (intensity distance * 1.5)

/-- Projection of the cursor signal on one canvas axis:
`(mousePosition.x + 1) * canvas.width / 2`. -/
def project (c extent : ℝ) : ℝ := (c + 1) * extent / 2

/-- Line 58: distance between the centre of the cell with corner `(x, y)` and
the projected cursor. -/
def cellDistance (width height : ℝ) (m : Signal) (x y : ℝ) : ℝ :=
  let centerX := x + gridSize / 2
  let centerY := y + gridSize / 2
  let mouseX := project m.x width
  let mouseY := project m.y height
  Real.sqrt ((centerX - mouseX) ^ 2 + (centerY - mouseY) ^ 2)

/-- What `drawLines` strokes for one drawn cell. -/
structure Glyph where
  centerX : ℝ
  centerY : ℝ
  alpha : ℝ
  lineWidth : ℝ
  shadowBlur : ℝ

/-- Body of the two nested loops of `drawLines` (lines 52-93) for the cell
with corner `(x, y)`: a glyph when the cell is within `maxDistance`. -/
def drawCell (width height : ℝ) (m : Signal) (x y : ℝ) : Option Glyph :=
  let distance := cellDistance width height m x y
  if distance < maxDistance then
    some { centerX := x + gridSize / 2
           centerY := y + gridSize / 2
           alpha := alpha distance
           lineWidth := lineWidth distance
           shadowBlur := intensity distance * 5 }
  else none

/-- The loop `for (let x = start; x < limit; x += gridSize)`: the values the
loop variable takes, with `fuel` bounding the number of iterations. -/
def gridFrom (limit : ℝ) : ℕ → ℝ → List ℝ
  | 0, _ => []
  | fuel + 1, x => if x < limit then x :: gridFrom limit fuel (x + gridSize) else []

/-- Values of the loop variable of `for (let x = 0; x < limit; x += gridSize)`.
The fuel `⌈limit / gridSize⌉₊` is never exhausted before the loop condition
fails (`mem_gridAxis`). -/
def gridAxis (limit : ℝ) : List ℝ := gridFrom limit ⌈limit / gridSize⌉₊ 0

/-- Corners `(x, y)` of the grid cells visited by one frame of `drawLines`. -/
def gridCells (width height : ℝ) : List (ℝ × ℝ) :=
  (gridAxis width).flatMap fun x => (gridAxis height).map fun y => (x, y)

/-- One frame of `drawLines`: the glyphs stroked, in loop order. -/
def drawLines (width height : ℝ) (m : Signal) : List Glyph :=
  (gridCells width height).filterMap fun c => drawCell width height m c.1 c.2

/-! ## Particle field renderer -/

/-- Fields of `class Particle`. -/
structure Particle where
  x : ℝ
  y : ℝ
  size : ℝ
  speedX : ℝ
  speedY : ℝ
  opacity : ℝ
  hue : ℝ

namespace Particle

/-- The `constructor` (lines 127-135); `r0 .. r6` are the seven results of
`Math.random()` in call order. -/
def new (width height r0 r1 r2 r3 r4 r5 r6 : ℝ) : Particle :=
  { x := r0 * width
    y := r1 * height
    size := r2 * 2 + 0.5
    speedX := r3 * 0.5 - 0.25
    speedY := r4 * 0.5 - 0.25
    opacity := r5 * 0.3 + 0.1
    hue := r6 * 40 + 220 }

/-- Lines 138-142 of `update`: advance by the velocity, then flip a velocity
component when the new coordinate is out of the canvas. -/
def advance (width height : ℝ) (p : Particle) : Particle :=
  let x := p.x + p.speedX
  let y := p.y + p.speedY
  { p with
    x := x
    y := y
    speedX := if x > width ∨ x < 0 then p.speedX * -1 else p.speedX
    speedY := if y > height ∨ y < 0 then p.speedY * -1 else p.speedY }

/-- Line 146: distance of the particle to the projected cursor. -/
def cursorDistance (width height : ℝ) (m : Signal) (p : Particle) : ℝ :=
  let dx := p.x - project m.x width
  let dy := p.y - project m.y height
  Real.sqrt (dx * dx + dy * dy)

/-- Line 149: `force = (200 - distance) / 200`. -/
def force (distance : ℝ) : ℝ := (200 - distance) / 200

/-- Lines 144-152 of `update`: the cursor nudge. -/
def nudge (width height : ℝ) (m : Signal) (p : Particle) : Particle :=
  let dx := p.x - project m.x width
  let dy := p.y - project m.y height
  let distance := Real.sqrt (dx * dx + dy * dy)
  if distance < 200 then
    { p with
      x := p.x + dx * force distance * 0.01
      y := p.y + dy * force distance * 0.01 }
  else p

/-- The method `update` (lines 137-153). -/
def update (width height : ℝ) (m : Signal) (p : Particle) : Particle :=
  nudge width height m (advance width height p)

/-- The particle lies on the canvas rectangle `[0, width] × [0, height]`. -/
def InBounds (width height : ℝ) (p : Particle) : Prop :=
  (0 ≤ p.x ∧ p.x ≤ width) ∧ (0 ≤ p.y ∧ p.y ≤ height)

end Particle

/-- Line 163: `Array.from` with `length: 60` and `() => new Particle()`; particle
`i` consumes the random numbers `rand (7 * i) .. rand (7 * i + 6)`. -/
def initParticles (width height : ℝ) (rand : ℕ → ℝ) : List Particle :=
  (List.range 60).map fun i =>
    Particle.new width height (rand (7 * i)) (rand (7 * i + 1)) (rand (7 * i + 2))
      (rand (7 * i + 3)) (rand (7 * i + 4)) (rand (7 * i + 5)) (rand (7 * i + 6))

/-- A line stroked by the linking pass (lines 181-186). -/
structure Link where
  fromX : ℝ
  fromY : ℝ
  toX : ℝ
  toY : ℝ
  opacity : ℝ
  lineWidth : ℝ

/-- Lines 175-177: distance between two particles. -/
def linkDistance (p q : Particle) : ℝ :=
  let dx := p.x - q.x
  let dy := p.y - q.y
  Real.sqrt (dx * dx + dy * dy)

/-- Line 180: `opacity = (120 - distance) / 120 * 0.15`. -/
def linkOpacity (distance : ℝ) : ℝ := (120 - distance) / 120 * 0.15

/-- The pairs visited by the nested `forEach` of lines 173-174: for every
index `i`, the particle at `i` with every element of `particles.slice(i + 1)`;
each particle is tagged with its index in `particles`. -/
def examinedPairs {α : Type} (particles : List α) : List ((ℕ × α) × (ℕ × α)) :=
  particles.enum.flatMap fun ip =>
    ((particles.drop (ip.1 + 1)).enumFrom (ip.1 + 1)).map fun jq => (ip, jq)

/-- Lines 175-187: the body of the inner `forEach` for one pair. -/
def linkBody (p q : Particle) : Option Link :=
  let distance := linkDistance p q
  if distance < 120 then
    some { fromX := p.x, fromY := p.y, toX := q.x, toY := q.y
           opacity := linkOpacity distance, lineWidth := 0.5 }
  else none

/-- The linking pass of `animate` (lines 173-189): the links stroked. -/
def linkingPass (particles : List Particle) : List Link :=
  (examinedPairs particles).filterMap fun pq => linkBody pq.1.2 pq.2.2

/-- Index pairs for which the linking pass strokes a link. -/
def linkedIndices (particles : List Particle) : List (ℕ × ℕ) :=
  ((examinedPairs particles).filter fun pq => linkDistance pq.1.2 pq.2.2 < 120).map
    fun pq => (pq.1.1, pq.2.1)

/-- The first `forEach` of `animate` (lines 168-171): every particle is
updated in place. -/
def updateAll (width height : ℝ) (m : Signal) (particles : List Particle) : List Particle :=
  particles.map (Particle.update width height m)

/-- One frame of `animate`: the particles after the frame and the links
stroked by it. -/
def animate (width height : ℝ) (m : Signal) (particles : List Particle) :
    List Particle × List Link :=
  let particles1 := updateAll width height m particles
  (particles1, linkingPass particles1)

/-- The particle collection after `k` frames of `animate`. -/
def frames (width height : ℝ) (m : Signal) : ℕ → List Particle → List Particle
  | 0, particles => particles
  | k + 1, particles => frames width height m k (animate width height m particles).1

/-! ## The mounted view as a state machine -/

/-- What the particles effect (lines 111-202) reads and writes.

* `isLoading`, `mousePosition`: the React state of lines 5-6. While
  `isLoading` holds the component returns the loading screen (lines 212-219),
  so no canvas is rendered and `particlesRef.current` is `null`.
* `innerWidth`, `innerHeight`: the window size, an integer number of pixels.
* `canvasWidth`, `canvasHeight`: the size of the particles canvas, an
  integer; an integer window size is stored unchanged.
* `running`: the last run of the effect got past the guard of line 113, so
  its resize listener is registered and its `animate` loop is scheduled.
* `particles`: the array `particles` of that run, empty when there is none.
* `randomCalls`: the number of `Math.random()` calls made so far. -/
structure FieldState where
  isLoading : Bool
  mousePosition : Signal
  innerWidth : ℕ
  innerHeight : ℕ
  canvasWidth : ℕ
  canvasHeight : ℕ
  running : Bool
  particles : List Particle
  randomCalls : ℕ

/-- Events delivered to the mounted view: the timer of lines 205-210 firing,
a window resize, a pointer move, and an animation frame. -/
inductive Event where
  | loaded
  | resize (innerWidth innerHeight : ℕ)
  | mouseMove (clientX clientY : ℝ)
  | frame

/-- One re-run of the particles effect (lines 111-202). The cleanup of the
previous run (lines 196-201) stops its loop and drops its listener. Then the
body runs: without a canvas it returns at line 113; with one it calls
`resizeCanvas()`, builds the 60 particles of line 163 from the next 420
random numbers, and calls `animate()` (line 194), which runs one frame and
schedules the loop. -/
def particlesEffect (rand : ℕ → ℝ) (s : FieldState) : FieldState :=
  if s.isLoading then
    { s with running := false, particles := [] }
  else
    { s with
      canvasWidth := s.innerWidth
      canvasHeight := s.innerHeight
      running := true
      particles :=
        (animate s.innerWidth s.innerHeight s.mousePosition
          (initParticles s.innerWidth s.innerHeight fun i => rand (s.randomCalls + i))).1
      randomCalls := s.randomCalls + 420 }

/-- The view right after mount in a window of the given size: the loading
screen is shown, `mousePosition` is the origin, and the first run of the
particles effect has found no canvas and returned at line 113. The canvas
size is the one of a canvas element that was never sized, 300 × 150; nothing
reads it before a run of the effect has set it. -/
def mount (innerWidth innerHeight : ℕ) : FieldState :=
  { isLoading := true
    mousePosition := Signal.origin
    innerWidth := innerWidth
    innerHeight := innerHeight
    canvasWidth := 300
    canvasHeight := 150
    running := false
    particles := []
    randomCalls := 0 }

/-- Reaction of the mounted view to one event.

* `loaded`: `setIsLoading(false)`; the next render shows the canvases. The
  particles effect lists only `mousePosition` as its dependency (line 202),
  so it does not run again.
* `resize`: the window takes its new size; if the effect has registered
  `resizeCanvas` (lines 118-124), the canvas is resized to it.
* `mouseMove`: `handleMouseMove` stores a new object in `mousePosition`, the
  dependency of the particles effect, so the effect runs again.
* `frame`: the callback `animate`, if a run of the effect has scheduled it;
  `update` reads the canvas size of that moment. -/
def step (rand : ℕ → ℝ) (s : FieldState) : Event → FieldState
  | Event.loaded => { s with isLoading := false }
  | Event.resize innerWidth innerHeight =>
    if s.running then
      { s with
        innerWidth := innerWidth
        innerHeight := innerHeight
        canvasWidth := innerWidth
        canvasHeight := innerHeight }
    else
      { s with innerWidth := innerWidth, innerHeight := innerHeight }
  | Event.mouseMove clientX clientY =>
    particlesEffect rand
      { s with mousePosition := handleMouseMove clientX clientY s.innerWidth s.innerHeight }
  | Event.frame =>
    if s.running then
      { s with
        particles := (animate s.canvasWidth s.canvasHeight s.mousePosition s.particles).1 }
    else s

/-- The view after a sequence of events. -/
def run (rand : ℕ → ℝ) (s : FieldState) (events : List Event) : FieldState :=
  events.foldl (step rand) s

/-! ## Concrete inputs -/

/-- A stream of random numbers in `(0, 1)`: the `i`-th call returns
`1 / (i + 2)`. -/
def harmonicRand (i : ℕ) : ℝ := 1 / ((i : ℝ) + 2)

/-- The particle used to exhibit the nudge: at rest at `(300, 200)`. -/
def restingParticle : Particle :=
  { x := 300, y := 200, size := 1, speedX := 0, speedY := 0, opacity := 0.2, hue := 230 }

/-- A particle near the bottom-right corner of a 1000 × 1000 canvas, moving
towards the corner. -/
def cornerParticle : Particle :=
  { x := 999.9, y := 999.7, size := 1, speedX := 0.25, speedY := 0.25
    opacity := 0.2, hue := 230 }

/-- The cursor signal `(-1, -1)`, projected to the canvas origin. -/
def topLeftSignal : Signal := ⟨-1, -1⟩

/-- A particle on the right edge of a 400 × 400 canvas, moving right. -/
def edgeParticle : Particle :=
  { x := 400, y := 200, size := 1, speedX := 0.25, speedY := 0, opacity := 0.2, hue := 230 }

/-- The cursor signal `(0.5, 0)`, projected to `(300, 200)` on a 400 × 400
canvas. -/
def rightSignal : Signal := ⟨0.5, 0⟩

/-- Three particles at rest at `(0, 0)`, `(30, 40)` and `(300, 400)`: the
first two are 50 apart, the third is 500 and 450 away from them. -/
def originParticle : Particle :=
  { x := 0, y := 0, size := 1, speedX := 0, speedY := 0, opacity := 0.2, hue := 230 }

/-- The particle at rest at `(30, 40)`. -/
def nearParticle : Particle :=
  { x := 30, y := 40, size := 1, speedX := 0, speedY := 0, opacity := 0.2, hue := 230 }

/-- The particle at rest at `(300, 400)`. -/
def farParticle : Particle :=
  { x := 300, y := 400, size := 1, speedX := 0, speedY := 0, opacity := 0.2, hue := 230 }

/-! ## Cursor tracker: range of the signal -/

/-- C1: for a positive viewport and a pointer inside it, the signal published
by `handleMouseMove` lies in `[-1, 1] × [-1, 1]`. -/
theorem handleMouseMove_range (clientX clientY innerWidth innerHeight : ℝ)
    (hw : 0 < innerWidth) (hh : 0 < innerHeight)
    (hx0 : 0 ≤ clientX) (hx1 : clientX ≤ innerWidth)
    (hy0 : 0 ≤ clientY) (hy1 : clientY ≤ innerHeight) :
    (handleMouseMove clientX clientY innerWidth innerHeight).x
        = (clientX / innerWidth) * 2 - 1 ∧
    (handleMouseMove clientX clientY innerWidth innerHeight).y
        = (clientY / innerHeight) * 2 - 1 ∧
    -1 ≤ (handleMouseMove clientX clientY innerWidth innerHeight).x ∧
    (handleMouseMove clientX clientY innerWidth innerHeight).x ≤ 1 ∧
    -1 ≤ (handleMouseMove clientX clientY innerWidth innerHeight).y ∧
    (handleMouseMove clientX clientY innerWidth innerHeight).y ≤ 1 := by
  have hx2 : 0 ≤ clientX / innerWidth := div_nonneg hx0 hw.le
  have hx3 : clientX / innerWidth ≤ 1 := (div_le_one hw).mpr hx1
  have hy2 : 0 ≤ clientY / innerHeight := div_nonneg hy0 hh.le
  have hy3 : clientY / innerHeight ≤ 1 := (div_le_one hh).mpr hy1
  refine ⟨rfl, rfl, ?_, ?_, ?_, ?_⟩ <;> simp only [handleMouseMove] <;> linarith

/-- Witness for C1: a 200 × 100 viewport with the pointer at `(150, 20)`. -/
theorem handleMouseMove_range_witness :
    ((0 : ℝ) < 200 ∧ (0 : ℝ) < 100 ∧ (0 : ℝ) ≤ 150 ∧ (150 : ℝ) ≤ 200 ∧
      (0 : ℝ) ≤ 20 ∧ (20 : ℝ) ≤ 100) ∧
    -1 ≤ (handleMouseMove 150 20 200 100).x ∧ (handleMouseMove 150 20 200 100).x ≤ 1 ∧
    -1 ≤ (handleMouseMove 150 20 200 100).y ∧ (handleMouseMove 150 20 200 100).y ≤ 1 :=
  ⟨by norm_num, (handleMouseMove_range 150 20 200 100 (by norm_num) (by norm_num)
    (by norm_num) (by norm_num) (by norm_num) (by norm_num)).2.2⟩

/-! ## Line field: intensity, alpha and line width -/

theorem intensity_anti {d1 d2 : ℝ} (h : d1 ≤ d2) : intensity d2 ≤ intensity d1 := by
  unfold intensity maxDistance
  have : d1 / 180 ≤ d2 / 180 := div_le_div_of_nonneg_right h (by norm_num)
  linarith

theorem intensity_le_one {d : ℝ} (h : 0 ≤ d) : intensity d ≤ 1 := by
  unfold intensity maxDistance
  have : 0 ≤ d / 180 := div_nonneg h (by norm_num)
  linarith

theorem alpha_anti {d1 d2 : ℝ} (h : d1 ≤ d2) : alpha d2 ≤ alpha d1 := by
  unfold alpha
  exact max_le_max le_rfl (by nlinarith [intensity_anti h])

theorem lineWidth_anti {d1 d2 : ℝ} (h : d1 ≤ d2) : lineWidth d2 ≤ lineWidth d1 := by
  unfold lineWidth
  exact max_le_max le_rfl (by nlinarith [intensity_anti h])

theorem alpha_bounds {d : ℝ} (h : 0 ≤ d) : 0.05 ≤ alpha d ∧ alpha d ≤ 0.6 := by
  unfold alpha
  refine ⟨le_max_left _ _, max_le (by norm_num) ?_⟩
  nlinarith [intensity_le_one h]

theorem lineWidth_bounds {d : ℝ} (h : 0 ≤ d) : 0.5 ≤ lineWidth d ∧ lineWidth d ≤ 1.5 := by
  unfold lineWidth
  refine ⟨le_max_left _ _, max_le (by norm_num) ?_⟩
  nlinarith [intensity_le_one h]

theorem cellDistance_nonneg (width height : ℝ) (m : Signal) (x y : ℝ) :
    0 ≤ cellDistance width height m x y := Real.sqrt_nonneg _

theorem mem_drawLines {width height : ℝ} {m : Signal} {g : Glyph} :
    g ∈ drawLines width height m ↔
      ∃ c ∈ gridCells width height, drawCell width height m c.1 c.2 = some g := by
  simp [drawLines, List.mem_filterMap]

theorem drawCell_eq_some {width height : ℝ} {m : Signal} {x y : ℝ} {g : Glyph}
    (h : drawCell width height m x y = some g) :
    cellDistance width height m x y < maxDistance ∧
    g.alpha = alpha (cellDistance width height m x y) ∧
    g.lineWidth = lineWidth (cellDistance width height m x y) := by
  unfold drawCell at h
  by_cases hd : cellDistance width height m x y < maxDistance
  · simp only [hd, if_true, Option.some.injEq] at h
    subst h
    exact ⟨hd, rfl, rfl⟩
  · simp [hd] at h

/-- C5: on `0 ≤ d1 ≤ d2 < maxDistance` the intensity, alpha and line width of
`drawLines` do not increase with the distance, alpha stays in `[0.05, 0.6]`
and the line width in `[0.5, 1.5]`; every glyph a frame strokes has its alpha
and line width in these ranges. -/
theorem drawLines_monotone_clamped (d1 d2 : ℝ) (h0 : 0 ≤ d1) (h12 : d1 ≤ d2)
    (_h2 : d2 < maxDistance) :
    maxDistance = 180 ∧
    (intensity d2 ≤ intensity d1 ∧ alpha d2 ≤ alpha d1 ∧ lineWidth d2 ≤ lineWidth d1) ∧
    (0.05 ≤ alpha d1 ∧ alpha d1 ≤ 0.6 ∧ 0.5 ≤ lineWidth d1 ∧ lineWidth d1 ≤ 1.5) ∧
    (0.05 ≤ alpha d2 ∧ alpha d2 ≤ 0.6 ∧ 0.5 ≤ lineWidth d2 ∧ lineWidth d2 ≤ 1.5) ∧
    ∀ (width height : ℝ) (m : Signal), ∀ g ∈ drawLines width height m,
      0.05 ≤ g.alpha ∧ g.alpha ≤ 0.6 ∧ 0.5 ≤ g.lineWidth ∧ g.lineWidth ≤ 1.5 := by
  have h02 : 0 ≤ d2 := h0.trans h12
  refine ⟨rfl, ⟨intensity_anti h12, alpha_anti h12, lineWidth_anti h12⟩,
    ⟨(alpha_bounds h0).1, (alpha_bounds h0).2, (lineWidth_bounds h0).1, (lineWidth_bounds h0).2⟩,
    ⟨(alpha_bounds h02).1, (alpha_bounds h02).2, (lineWidth_bounds h02).1,
      (lineWidth_bounds h02).2⟩, ?_⟩
  intro width height m g hg
  obtain ⟨c, _, hc⟩ := mem_drawLines.mp hg
  obtain ⟨_, ha, hl⟩ := drawCell_eq_some hc
  have hd := cellDistance_nonneg width height m c.1 c.2
  rw [ha, hl]
  exact ⟨(alpha_bounds hd).1, (alpha_bounds hd).2, (lineWidth_bounds hd).1,
    (lineWidth_bounds hd).2⟩

/-- Witness for C5: the distances 30 and 90. -/
theorem drawLines_monotone_clamped_witness :
    ((0 : ℝ) ≤ 30 ∧ (30 : ℝ) ≤ 90 ∧ (90 : ℝ) < maxDistance) ∧
    intensity 90 ≤ intensity 30 ∧ alpha 90 ≤ alpha 30 ∧ lineWidth 90 ≤ lineWidth 30 :=
  ⟨⟨by norm_num, by norm_num, by norm_num [maxDistance]⟩,
    (drawLines_monotone_clamped 30 90 (by norm_num) (by norm_num)
      (by norm_num [maxDistance])).2.1⟩

/-! ## Particle field: link opacity -/

theorem linkDistance_same_position {p q : Particle} (hx : p.x = q.x) (hy : p.y = q.y) :
    linkDistance p q = 0 := by
  simp [linkDistance, hx, hy]

/-- C6: two particles at the same position have distance 0 and the linking
pass strokes a link between them with opacity 0.15; for every distance
`0 ≤ d < 120` the opacity lies in `(0, 0.15]`, is the affine function
`0.15 - d * (0.15 / 120)` of the distance and strictly decreases with it. -/
theorem link_identical_position (p q : Particle) (hx : p.x = q.x) (hy : p.y = q.y) :
    linkDistance p q = 0 ∧
    linkingPass [p, q] =
      [{ fromX := p.x, fromY := p.y, toX := q.x, toY := q.y
         opacity := 0.15, lineWidth := 0.5 }] ∧
    linkOpacity 0 = 0.15 ∧
    ∀ d : ℝ, 0 ≤ d → d < 120 →
      0 < linkOpacity d ∧ linkOpacity d ≤ linkOpacity 0 ∧
      linkOpacity d = 0.15 - d * (0.15 / 120) ∧
      ∀ e : ℝ, d < e → linkOpacity e < linkOpacity d := by
  have hd := linkDistance_same_position hx hy
  have h0 : linkOpacity 0 = 0.15 := by norm_num [linkOpacity]
  refine ⟨hd, ?_, h0, ?_⟩
  · simp [linkingPass, examinedPairs, List.enum, List.enumFrom, linkBody, hd, h0]
  · intro d hd0 hd1
    refine ⟨?_, ?_, ?_, ?_⟩
    · unfold linkOpacity
      have : 0 < (120 - d) / 120 := div_pos (by linarith) (by norm_num)
      linarith
    · rw [h0]; unfold linkOpacity; linarith
    · unfold linkOpacity; ring
    · intro e he
      unfold linkOpacity
      linarith

/-- Witness for C6: two particles that differ only in their velocity. -/
theorem link_identical_position_witness :
    linkDistance ⟨10, 20, 1, 0.25, 0, 0.2, 230⟩ ⟨10, 20, 1, -0.25, 0, 0.2, 230⟩ = 0 ∧
    linkOpacity 0 = 0.15 :=
  have h := link_identical_position ⟨10, 20, 1, 0.25, 0, 0.2, 230⟩
    ⟨10, 20, 1, -0.25, 0, 0.2, 230⟩ rfl rfl
  ⟨h.1, h.2.2.1⟩

/-! ## Particle field: the bounce -/

namespace Particle

theorem nudge_speedX (width height : ℝ) (m : Signal) (p : Particle) :
    (nudge width height m p).speedX = p.speedX := by
  unfold nudge
  dsimp only
  split_ifs <;> rfl

theorem nudge_speedY (width height : ℝ) (m : Signal) (p : Particle) :
    (nudge width height m p).speedY = p.speedY := by
  unfold nudge
  dsimp only
  split_ifs <;> rfl

theorem update_speedX (width height : ℝ) (m : Signal) (p : Particle) :
    (update width height m p).speedX =
      if p.x + p.speedX > width ∨ p.x + p.speedX < 0 then -p.speedX else p.speedX := by
  rw [update, nudge_speedX]
  simp [advance]

theorem update_speedY (width height : ℝ) (m : Signal) (p : Particle) :
    (update width height m p).speedY =
      if p.y + p.speedY > height ∨ p.y + p.speedY < 0 then -p.speedY else p.speedY := by
  rw [update, nudge_speedY]
  simp [advance]

theorem abs_update_speedX (width height : ℝ) (m : Signal) (p : Particle) :
    |(update width height m p).speedX| = |p.speedX| := by
  rw [update_speedX]
  split_ifs
  · exact abs_neg _
  · rfl

theorem abs_update_speedY (width height : ℝ) (m : Signal) (p : Particle) :
    |(update width height m p).speedY| = |p.speedY| := by
  rw [update_speedY]
  split_ifs
  · exact abs_neg _
  · rfl

theorem abs_iterate_speed (width height : ℝ) (m : Signal) (n : ℕ) (p : Particle) :
    |((update width height m)^[n] p).speedX| = |p.speedX| ∧
    |((update width height m)^[n] p).speedY| = |p.speedY| := by
  induction n generalizing p with
  | zero => exact ⟨rfl, rfl⟩
  | succ n ih =>
    rw [Function.iterate_succ_apply]
    obtain ⟨hx, hy⟩ := ih (update width height m p)
    exact ⟨hx.trans (abs_update_speedX _ _ _ _), hy.trans (abs_update_speedY _ _ _ _)⟩

end Particle

/-- C10: `update` negates `speedX` exactly when the advanced `x` is `> width`
or `< 0` and `speedY` exactly when the advanced `y` is `> height` or `< 0`,
leaving them unchanged otherwise; after any number of updates `|speedX|` and
`|speedY|` equal their initial values. -/
theorem update_bounce_elastic (width height : ℝ) (m : Signal) (p : Particle) :
    ((Particle.update width height m p).speedX =
      if p.x + p.speedX > width ∨ p.x + p.speedX < 0 then -p.speedX else p.speedX) ∧
    ((Particle.update width height m p).speedY =
      if p.y + p.speedY > height ∨ p.y + p.speedY < 0 then -p.speedY else p.speedY) ∧
    ∀ n : ℕ,
      |((Particle.update width height m)^[n] p).speedX| = |p.speedX| ∧
      |((Particle.update width height m)^[n] p).speedY| = |p.speedY| :=
  ⟨Particle.update_speedX width height m p, Particle.update_speedY width height m p,
    fun n => Particle.abs_iterate_speed width height m n p⟩

/-! ## Particle field: population -/

theorem length_initParticles (width height : ℝ) (rand : ℕ → ℝ) :
    (initParticles width height rand).length = 60 := by
  simp [initParticles]

theorem length_frames (width height : ℝ) (m : Signal) (k : ℕ) (particles : List Particle) :
    (frames width height m k particles).length = particles.length := by
  induction k generalizing particles with
  | zero => rfl
  | succ k ih =>
    rw [frames, ih]
    simp [animate, updateAll]

/-- C7: the collection built at initialization has 60 particles and still has
60 particles after any number `k` of frames of `animate`. -/
theorem particle_count_invariant (width height : ℝ) (rand : ℕ → ℝ) (m : Signal) :
    (initParticles width height rand).length = 60 ∧
    ∀ k : ℕ, (frames width height m k (initParticles width height rand)).length = 60 :=
  ⟨length_initParticles width height rand, fun k => by
    rw [length_frames, length_initParticles]⟩

/-! ## Particle field: the cursor nudge -/

namespace Particle

theorem nudge_of_lt {width height : ℝ} {m : Signal} {p : Particle}
    (h : cursorDistance width height m p < 200) :
    nudge width height m p =
      { p with
        x := p.x + (p.x - project m.x width) *
          force (cursorDistance width height m p) * 0.01
        y := p.y + (p.y - project m.y height) *
          force (cursorDistance width height m p) * 0.01 } := by
  unfold cursorDistance at h
  unfold nudge cursorDistance
  simp only [h, if_true]

theorem nudge_of_ge {width height : ℝ} {m : Signal} {p : Particle}
    (h : 200 ≤ cursorDistance width height m p) : nudge width height m p = p := by
  unfold cursorDistance at h
  unfold nudge
  simp only [not_lt.mpr h, if_false]

/-- The nudge scales the offset from the cursor by `1 + force d * 0.01`. -/
theorem cursorDistance_nudge {width height : ℝ} {m : Signal} {p : Particle}
    (h0 : 0 ≤ force (cursorDistance width height m p))
    (h : cursorDistance width height m p < 200) :
    cursorDistance width height m (nudge width height m p) =
      cursorDistance width height m p *
        (1 + force (cursorDistance width height m p) * 0.01) := by
  rw [nudge_of_lt h]
  generalize force (cursorDistance width height m p) = f at h0 ⊢
  unfold cursorDistance
  dsimp only
  have hc : (0 : ℝ) ≤ 1 + f * 0.01 := by linarith
  have e : (p.x + (p.x - project m.x width) * f * 0.01 - project m.x width) *
        (p.x + (p.x - project m.x width) * f * 0.01 - project m.x width) +
      (p.y + (p.y - project m.y height) * f * 0.01 - project m.y height) *
        (p.y + (p.y - project m.y height) * f * 0.01 - project m.y height) =
      ((p.x - project m.x width) * (p.x - project m.x width) +
        (p.y - project m.y height) * (p.y - project m.y height)) *
        ((1 + f * 0.01) * (1 + f * 0.01)) := by ring
  rw [e, Real.sqrt_mul' _ (mul_self_nonneg _), Real.sqrt_mul_self hc]

theorem force_pos {d : ℝ} (h : d < 200) : 0 < force d := by
  unfold force
  exact div_pos (by linarith) (by norm_num)

theorem force_strictAnti {d1 d2 : ℝ} (h : d1 < d2) : force d2 < force d1 := by
  unfold force
  exact div_lt_div_of_pos_right (by linarith) (by norm_num)

end Particle

/-- C3 (amended): when the distance `d` of the advanced particle to the
projected cursor satisfies `0 < d < 200`, the nudge of `update` scales the
offset from the cursor by `1 + force d * 0.01`, so the particle ends strictly
farther from the cursor than `d`; `force d = (200 - d) / 200` is strictly
larger for smaller `d`; for `d ≥ 200` the nudge changes nothing. -/
theorem update_nudge_away (width height : ℝ) (m : Signal) (p : Particle) :
    (0 < Particle.cursorDistance width height m (Particle.advance width height p) →
      Particle.cursorDistance width height m (Particle.advance width height p) < 200 →
      Particle.cursorDistance width height m (Particle.update width height m p) =
        Particle.cursorDistance width height m (Particle.advance width height p) *
          (1 + Particle.force
            (Particle.cursorDistance width height m (Particle.advance width height p)) * 0.01) ∧
      Particle.cursorDistance width height m (Particle.advance width height p) <
        Particle.cursorDistance width height m (Particle.update width height m p)) ∧
    (∀ d : ℝ, Particle.force d = (200 - d) / 200) ∧
    (∀ d1 d2 : ℝ, d1 < d2 → Particle.force d2 < Particle.force d1) ∧
    (200 ≤ Particle.cursorDistance width height m (Particle.advance width height p) →
      Particle.update width height m p = Particle.advance width height p) := by
  refine ⟨fun hpos hlt => ?_, fun _ => rfl, fun _ _ h => Particle.force_strictAnti h,
    fun hge => Particle.nudge_of_ge hge⟩
  have hf := Particle.force_pos hlt
  have e := Particle.cursorDistance_nudge hf.le hlt
  refine ⟨e, ?_⟩
  rw [Particle.update, e]
  nlinarith [mul_pos hpos hf]

theorem advance_restingParticle :
    Particle.advance 400 400 restingParticle = restingParticle := by
  simp [Particle.advance, restingParticle]

theorem cursorDistance_restingParticle :
    Particle.cursorDistance 400 400 Signal.origin restingParticle = 100 := by
  have e : (100 : ℝ) * 100 = 10000 := by norm_num
  simp only [Particle.cursorDistance, restingParticle, Signal.origin, project]
  norm_num
  rw [← e, Real.sqrt_mul_self (by norm_num)]

/-- C3 (as stated) fails: on a 400 × 400 canvas with the cursor signal
`(0, 0)` (projected to `(200, 200)`), the particle at rest at `(300, 200)` is
at distance 100 after the advance, and at distance 100.5 after `update`. -/
theorem update_nudge_not_toward :
    Particle.cursorDistance 400 400 Signal.origin
        (Particle.advance 400 400 restingParticle) = 100 ∧
    Particle.cursorDistance 400 400 Signal.origin
        (Particle.update 400 400 Signal.origin restingParticle) = 100.5 ∧
    ¬ (Particle.cursorDistance 400 400 Signal.origin
        (Particle.update 400 400 Signal.origin restingParticle) <
      Particle.cursorDistance 400 400 Signal.origin
        (Particle.advance 400 400 restingParticle)) := by
  have h1 : Particle.cursorDistance 400 400 Signal.origin
      (Particle.advance 400 400 restingParticle) = 100 := by
    rw [advance_restingParticle, cursorDistance_restingParticle]
  have h2 : Particle.cursorDistance 400 400 Signal.origin
      (Particle.update 400 400 Signal.origin restingParticle) = 100.5 := by
    have hlt : Particle.cursorDistance 400 400 Signal.origin restingParticle < 200 := by
      rw [cursorDistance_restingParticle]; norm_num
    rw [Particle.update, advance_restingParticle,
      Particle.cursorDistance_nudge (Particle.force_pos hlt).le hlt,
      cursorDistance_restingParticle]
    norm_num [Particle.force]
  refine ⟨h1, h2, ?_⟩
  rw [h1, h2]
  norm_num

/-- Witness for C3 (amended): the particle at rest at `(300, 200)`. -/
theorem update_nudge_away_witness :
    (0 < Particle.cursorDistance 400 400 Signal.origin
        (Particle.advance 400 400 restingParticle) ∧
      Particle.cursorDistance 400 400 Signal.origin
        (Particle.advance 400 400 restingParticle) < 200) ∧
    Particle.cursorDistance 400 400 Signal.origin
        (Particle.advance 400 400 restingParticle) <
      Particle.cursorDistance 400 400 Signal.origin
        (Particle.update 400 400 Signal.origin restingParticle) := by
  have h1 : Particle.cursorDistance 400 400 Signal.origin
      (Particle.advance 400 400 restingParticle) = 100 := by
    rw [advance_restingParticle, cursorDistance_restingParticle]
  have hpos : 0 < Particle.cursorDistance 400 400 Signal.origin
      (Particle.advance 400 400 restingParticle) := by rw [h1]; norm_num
  have hlt : Particle.cursorDistance 400 400 Signal.origin
      (Particle.advance 400 400 restingParticle) < 200 := by rw [h1]; norm_num
  exact ⟨⟨hpos, hlt⟩,
    ((update_nudge_away 400 400 Signal.origin restingParticle).1 hpos hlt).2⟩

/-! ## Particle field: staying on the canvas -/

namespace Particle

theorem le_cursorDistance_of_x (width height : ℝ) (m : Signal) (p : Particle) :
    p.x - project m.x width ≤ cursorDistance width height m p := by
  unfold cursorDistance
  apply Real.le_sqrt_of_sq_le
  nlinarith [mul_self_nonneg (p.y - project m.y height)]

theorem cursorDistance_of_y_eq {width height : ℝ} {m : Signal} {p : Particle}
    (hy : p.y = project m.y height) (hx : project m.x width ≤ p.x) :
    cursorDistance width height m p = p.x - project m.x width := by
  unfold cursorDistance
  simp only [hy, sub_self, mul_zero, add_zero]
  exact Real.sqrt_mul_self (by linarith)

theorem le_nudge_x {width height : ℝ} {m : Signal} {p : Particle}
    (hx : project m.x width ≤ p.x) : p.x ≤ (nudge width height m p).x := by
  by_cases h : cursorDistance width height m p < 200
  · rw [nudge_of_lt h]
    have hf := force_pos h
    have : 0 ≤ (p.x - project m.x width) * force (cursorDistance width height m p) :=
      mul_nonneg (by linarith) hf.le
    show p.x ≤ p.x + (p.x - project m.x width) *
      force (cursorDistance width height m p) * 0.01
    linarith
  · rw [nudge_of_ge (not_lt.mp h)]

/-- One advance keeps, on each axis, the property "on the canvas now, or on
the canvas after the next advance". -/
theorem advance_axis (width height : ℝ) (p : Particle)
    (hx : (0 ≤ p.x ∧ p.x ≤ width) ∨ (0 ≤ p.x + p.speedX ∧ p.x + p.speedX ≤ width))
    (hy : (0 ≤ p.y ∧ p.y ≤ height) ∨ (0 ≤ p.y + p.speedY ∧ p.y + p.speedY ≤ height)) :
    ((0 ≤ (advance width height p).x ∧ (advance width height p).x ≤ width) ∨
      (0 ≤ (advance width height p).x + (advance width height p).speedX ∧
        (advance width height p).x + (advance width height p).speedX ≤ width)) ∧
    ((0 ≤ (advance width height p).y ∧ (advance width height p).y ≤ height) ∨
      (0 ≤ (advance width height p).y + (advance width height p).speedY ∧
        (advance width height p).y + (advance width height p).speedY ≤ height)) := by
  simp only [advance]
  constructor
  · by_cases h : p.x + p.speedX > width ∨ p.x + p.speedX < 0
    · rw [if_pos h]
      right
      rcases hx with hx | hx
      · constructor <;> linarith [hx.1, hx.2]
      · rcases h with h | h <;> linarith [hx.1, hx.2]
    · left
      push_neg at h
      exact ⟨h.2, h.1⟩
  · by_cases h : p.y + p.speedY > height ∨ p.y + p.speedY < 0
    · rw [if_pos h]
      right
      rcases hy with hy | hy
      · constructor <;> linarith [hy.1, hy.2]
      · rcases h with h | h <;> linarith [hy.1, hy.2]
    · left
      push_neg at h
      exact ⟨h.2, h.1⟩

theorem iterate_axis (width height : ℝ) (m : Signal) (p : Particle) (n : ℕ)
    (hin : InBounds width height p)
    (hfar : ∀ k < n, 200 ≤ cursorDistance width height m
      (advance width height ((update width height m)^[k] p))) :
    ((0 ≤ ((update width height m)^[n] p).x ∧ ((update width height m)^[n] p).x ≤ width) ∨
      (0 ≤ ((update width height m)^[n] p).x + ((update width height m)^[n] p).speedX ∧
        ((update width height m)^[n] p).x + ((update width height m)^[n] p).speedX
          ≤ width)) ∧
    ((0 ≤ ((update width height m)^[n] p).y ∧ ((update width height m)^[n] p).y ≤ height) ∨
      (0 ≤ ((update width height m)^[n] p).y + ((update width height m)^[n] p).speedY ∧
        ((update width height m)^[n] p).y + ((update width height m)^[n] p).speedY
          ≤ height)) := by
  induction n with
  | zero => exact ⟨Or.inl hin.1, Or.inl hin.2⟩
  | succ n ih =>
    have ih1 := ih fun k hk => hfar k (Nat.lt_succ_of_lt hk)
    rw [Function.iterate_succ_apply', update, nudge_of_ge (hfar n (Nat.lt_succ_self n))]
    exact advance_axis width height _ ih1.1 ih1.2

end Particle

/-- C2 (amended): for a particle that starts on the canvas, along a run of
updates in which the cursor nudge never fires (the advanced particle is at
distance `≥ 200` from the projected cursor at each update), each coordinate
overshoots for at most one frame: after `n` updates `x` is in `[0, width]` or
is in `[0, width]` after the next update, and likewise `y` in `[0, height]`. -/
theorem update_stays_on_canvas (width height : ℝ) (m : Signal) (p : Particle) (n : ℕ)
    (hin : Particle.InBounds width height p)
    (hfar : ∀ k ≤ n, 200 ≤ Particle.cursorDistance width height m
      (Particle.advance width height ((Particle.update width height m)^[k] p))) :
    ((0 ≤ ((Particle.update width height m)^[n] p).x ∧
        ((Particle.update width height m)^[n] p).x ≤ width) ∨
      (0 ≤ ((Particle.update width height m)^[n + 1] p).x ∧
        ((Particle.update width height m)^[n + 1] p).x ≤ width)) ∧
    ((0 ≤ ((Particle.update width height m)^[n] p).y ∧
        ((Particle.update width height m)^[n] p).y ≤ height) ∨
      (0 ≤ ((Particle.update width height m)^[n + 1] p).y ∧
        ((Particle.update width height m)^[n + 1] p).y ≤ height)) := by
  have h := Particle.iterate_axis width height m p n hin
    fun k hk => hfar k (Nat.le_of_lt hk)
  rw [Function.iterate_succ_apply', Particle.update,
    Particle.nudge_of_ge (hfar n le_rfl)]
  exact h

theorem advance_cornerParticle :
    Particle.advance 1000 1000 cornerParticle =
      { x := 1000.15, y := 999.95, size := 1, speedX := -0.25, speedY := 0.25
        opacity := 0.2, hue := 230 } := by
  simp only [Particle.advance, cornerParticle]
  norm_num

theorem update_cornerParticle :
    Particle.update 1000 1000 topLeftSignal cornerParticle =
      { x := 1000.15, y := 999.95, size := 1, speedX := -0.25, speedY := 0.25
        opacity := 0.2, hue := 230 } := by
  rw [Particle.update, Particle.nudge_of_ge, advance_cornerParticle]
  refine le_trans ?_ (Particle.le_cursorDistance_of_x _ _ _ _)
  rw [advance_cornerParticle]
  norm_num [topLeftSignal, project]

theorem advance_update_cornerParticle :
    Particle.advance 1000 1000 (Particle.update 1000 1000 topLeftSignal cornerParticle) =
      { x := 999.9, y := 1000.2, size := 1, speedX := -0.25, speedY := -0.25
        opacity := 0.2, hue := 230 } := by
  rw [update_cornerParticle]
  simp only [Particle.advance]
  norm_num

theorem update_update_cornerParticle :
    (Particle.update 1000 1000 topLeftSignal)^[2] cornerParticle =
      { x := 999.9, y := 1000.2, size := 1, speedX := -0.25, speedY := -0.25
        opacity := 0.2, hue := 230 } := by
  rw [Function.iterate_succ_apply', Function.iterate_one, Particle.update,
    Particle.nudge_of_ge, advance_update_cornerParticle]
  refine le_trans ?_ (Particle.le_cursorDistance_of_x _ _ _ _)
  rw [advance_update_cornerParticle]
  norm_num [topLeftSignal, project]

theorem advance_edgeParticle :
    Particle.advance 400 400 edgeParticle =
      { x := 400.25, y := 200, size := 1, speedX := -0.25, speedY := 0
        opacity := 0.2, hue := 230 } := by
  simp only [Particle.advance, edgeParticle]
  norm_num

theorem cursorDistance_advance_edgeParticle :
    Particle.cursorDistance 400 400 rightSignal (Particle.advance 400 400 edgeParticle)
      = 100.25 := by
  rw [advance_edgeParticle, Particle.cursorDistance_of_y_eq] <;>
    norm_num [rightSignal, project]

theorem update_edgeParticle :
    Particle.update 400 400 rightSignal edgeParticle =
      { x := 400.749996875, y := 200, size := 1, speedX := -0.25, speedY := 0
        opacity := 0.2, hue := 230 } := by
  have hlt : Particle.cursorDistance 400 400 rightSignal
      (Particle.advance 400 400 edgeParticle) < 200 := by
    rw [cursorDistance_advance_edgeParticle]; norm_num
  rw [Particle.update, Particle.nudge_of_lt hlt, cursorDistance_advance_edgeParticle,
    advance_edgeParticle]
  norm_num [rightSignal, project, Particle.force]

theorem update_update_edgeParticle_x :
    400 < ((Particle.update 400 400 rightSignal)^[2] edgeParticle).x := by
  rw [Function.iterate_succ_apply', Function.iterate_one, Particle.update,
    update_edgeParticle]
  refine lt_of_lt_of_le ?_ (Particle.le_nudge_x ?_) <;>
    norm_num [Particle.advance, rightSignal, project]

/-- C2 (as stated) fails in two ways. Without any nudge (cursor projected to
the origin of a 1000 × 1000 canvas, more than 200 away), a particle starting
at `(999.9, 999.7)` with both speeds `0.25` is off the canvas after one update
(`x = 1000.15`) and still off it after the next (`y = 1000.2`). With the
nudge (400 × 400 canvas, cursor projected to `(300, 200)`), a particle
starting at `(400, 200)` with `speedX = 0.25` has `x > 400` after one update
and still `x > 400` after the next. -/
theorem update_leaves_canvas :
    (Particle.InBounds 1000 1000 cornerParticle ∧
      |cornerParticle.speedX| ≤ 0.25 ∧ |cornerParticle.speedY| ≤ 0.25 ∧
      |topLeftSignal.x| ≤ 1 ∧ |topLeftSignal.y| ≤ 1 ∧
      ¬ Particle.InBounds 1000 1000
        ((Particle.update 1000 1000 topLeftSignal)^[1] cornerParticle) ∧
      ¬ Particle.InBounds 1000 1000
        ((Particle.update 1000 1000 topLeftSignal)^[2] cornerParticle)) ∧
    (Particle.InBounds 400 400 edgeParticle ∧
      |edgeParticle.speedX| ≤ 0.25 ∧ |edgeParticle.speedY| ≤ 0.25 ∧
      |rightSignal.x| ≤ 1 ∧ |rightSignal.y| ≤ 1 ∧
      400 < ((Particle.update 400 400 rightSignal)^[1] edgeParticle).x ∧
      400 < ((Particle.update 400 400 rightSignal)^[2] edgeParticle).x ∧
      ¬ Particle.InBounds 400 400
        ((Particle.update 400 400 rightSignal)^[1] edgeParticle) ∧
      ¬ Particle.InBounds 400 400
        ((Particle.update 400 400 rightSignal)^[2] edgeParticle)) := by
  have a1 : ((Particle.update 400 400 rightSignal)^[1] edgeParticle).x > 400 := by
    rw [Function.iterate_one, update_edgeParticle]; norm_num
  have a2 := update_update_edgeParticle_x
  refine ⟨⟨?_, ?_, ?_, ?_, ?_, ?_, ?_⟩, ⟨?_, ?_, ?_, ?_, ?_, a1, a2, ?_, ?_⟩⟩
  · norm_num [Particle.InBounds, cornerParticle]
  · norm_num [cornerParticle, abs_le]
  · norm_num [cornerParticle, abs_le]
  · norm_num [topLeftSignal]
  · norm_num [topLeftSignal]
  · rw [Function.iterate_one, update_cornerParticle]
    norm_num [Particle.InBounds]
  · rw [update_update_cornerParticle]
    norm_num [Particle.InBounds]
  · norm_num [Particle.InBounds, edgeParticle]
  · norm_num [edgeParticle, abs_le]
  · norm_num [edgeParticle]
  · norm_num [rightSignal, abs_le]
  · norm_num [rightSignal]
  · intro h; exact absurd h.1.2 (not_le.mpr a1)
  · intro h; exact absurd h.1.2 (not_le.mpr a2)

/-- Witness for C2 (amended): the corner particle with the cursor projected to
the canvas origin, for `n = 1`. -/
theorem update_stays_on_canvas_witness :
    Particle.InBounds 1000 1000 cornerParticle ∧
    ((0 ≤ ((Particle.update 1000 1000 topLeftSignal)^[1] cornerParticle).x ∧
        ((Particle.update 1000 1000 topLeftSignal)^[1] cornerParticle).x ≤ 1000) ∨
      (0 ≤ ((Particle.update 1000 1000 topLeftSignal)^[1 + 1] cornerParticle).x ∧
        ((Particle.update 1000 1000 topLeftSignal)^[1 + 1] cornerParticle).x ≤ 1000)) := by
  have hin : Particle.InBounds 1000 1000 cornerParticle := by
    norm_num [Particle.InBounds, cornerParticle]
  refine ⟨hin, (update_stays_on_canvas 1000 1000 topLeftSignal cornerParticle 1 hin ?_).1⟩
  intro k hk
  refine le_trans ?_ (Particle.le_cursorDistance_of_x _ _ _ _)
  rcases Nat.le_one_iff_eq_zero_or_eq_one.mp hk with rfl | rfl
  · rw [Function.iterate_zero, id, advance_cornerParticle]
    norm_num [topLeftSignal, project]
  · rw [Function.iterate_one, advance_update_cornerParticle]
    norm_num [topLeftSignal, project]

/-! ## Particle field: the linking pass -/

theorem mem_examinedPairs {α : Type} {ps : List α} {i j : ℕ} {p q : α} :
    ((i, p), (j, q)) ∈ examinedPairs ps ↔ i < j ∧ ps[i]? = some p ∧ ps[j]? = some q := by
  unfold examinedPairs
  simp only [List.mem_flatMap, List.mem_map, Prod.exists, Prod.mk.injEq]
  constructor
  · rintro ⟨i', p', hip, j', q', hjq, ⟨rfl, rfl⟩, rfl, rfl⟩
    rw [List.mk_mem_enum_iff_getElem?] at hip
    rw [List.mk_mem_enumFrom_iff_le_and_getElem?_sub, List.getElem?_drop] at hjq
    obtain ⟨hle, hq⟩ := hjq
    rw [Nat.add_sub_cancel' hle] at hq
    exact ⟨hle, hip, hq⟩
  · rintro ⟨hlt, hp, hq⟩
    refine ⟨i, p, List.mk_mem_enum_iff_getElem?.mpr hp, j, q, ?_, ⟨rfl, rfl⟩, rfl, rfl⟩
    rw [List.mk_mem_enumFrom_iff_le_and_getElem?_sub, List.getElem?_drop]
    have hle : i + 1 ≤ j := hlt
    rw [Nat.add_sub_cancel' hle]
    exact ⟨hle, hq⟩

/-- The index pairs visited by the linking pass, in visiting order. -/
theorem examinedPairs_indices {α : Type} (ps : List α) :
    (examinedPairs ps).map (fun pq => (pq.1.1, pq.2.1)) =
      (List.range ps.length).flatMap fun i =>
        (List.range' (i + 1) (ps.length - (i + 1))).map fun j => (i, j) := by
  unfold examinedPairs
  rw [List.map_flatMap, ← List.enum_map_fst ps, List.flatMap_map]
  congr 1
  funext ip
  rw [List.map_map, ← List.length_drop, ← List.enumFrom_map_fst (ip.1 + 1), List.map_map]
  rfl

theorem nodup_examinedPairs_indices {α : Type} (ps : List α) :
    ((examinedPairs ps).map (fun pq => (pq.1.1, pq.2.1))).Nodup := by
  rw [examinedPairs_indices, List.nodup_flatMap]
  constructor
  · intro i _
    exact (List.nodup_range' _ _).map fun a b h => (Prod.mk.inj h).2
  · refine (List.nodup_range ps.length).imp ?_
    intro a b hab x hxa hxb
    rw [List.mem_map] at hxa hxb
    obtain ⟨_, _, rfl⟩ := hxa
    obtain ⟨_, _, h⟩ := hxb
    exact hab (Prod.mk.inj h).1.symm

theorem sum_range_sub (n : ℕ) :
    ((List.range n).map fun i => n - (i + 1)).sum * 2 = n * (n - 1) := by
  have e : (List.range n).toFinset = Finset.range n := by
    ext i
    simp
  rw [← Finset.sum_range_id_mul_two n, ← Finset.sum_range_reflect (fun i => i) n,
    ← List.sum_toFinset _ (List.nodup_range n), e]
  congr 1
  apply Finset.sum_congr rfl
  intro i _
  omega

theorem length_examinedPairs {α : Type} (ps : List α) :
    (examinedPairs ps).length = ps.length * (ps.length - 1) / 2 := by
  have h : (examinedPairs ps).length * 2 = ps.length * (ps.length - 1) := by
    rw [← List.length_map (examinedPairs ps) (fun pq => (pq.1.1, pq.2.1)),
      examinedPairs_indices, List.length_flatMap, ← sum_range_sub ps.length]
    congr 2
    apply List.map_congr_left
    intro i _
    simp
  omega

theorem linkDistance_comm (p q : Particle) : linkDistance p q = linkDistance q p := by
  simp only [linkDistance]
  congr 1
  ring

theorem isSome_linkBody (p q : Particle) :
    (linkBody p q).isSome ↔ linkDistance p q < 120 := by
  unfold linkBody
  by_cases h : linkDistance p q < 120 <;> simp [h]

/-- The linking pass strokes one link for each examined pair at distance
`< 120`, in visiting order. -/
theorem linkingPass_eq_map_filter (ps : List Particle) :
    linkingPass ps =
      ((examinedPairs ps).filter fun pq => linkDistance pq.1.2 pq.2.2 < 120).map fun pq =>
        { fromX := pq.1.2.x, fromY := pq.1.2.y, toX := pq.2.2.x, toY := pq.2.2.y
          opacity := linkOpacity (linkDistance pq.1.2 pq.2.2), lineWidth := 0.5 } := by
  unfold linkingPass
  induction examinedPairs ps with
  | nil => rfl
  | cons a l ih =>
    by_cases h : linkDistance a.1.2 a.2.2 < 120
    · have e : linkBody a.1.2 a.2.2 = some
          { fromX := a.1.2.x, fromY := a.1.2.y, toX := a.2.2.x, toY := a.2.2.y
            opacity := linkOpacity (linkDistance a.1.2 a.2.2), lineWidth := 0.5 } := by
        simp [linkBody, h]
      simp only [List.filterMap_cons, e, ih, List.filter_cons, decide_eq_true h, if_true,
        List.map_cons]
    · have e : linkBody a.1.2 a.2.2 = none := by
        simp [linkBody, h]
      simp only [List.filterMap_cons, e, ih, List.filter_cons, decide_eq_false h]
      rfl

theorem mem_linkedIndices {ps : List Particle} {i j : ℕ} :
    (i, j) ∈ linkedIndices ps ↔
      i < j ∧ ∃ p q, ps[i]? = some p ∧ ps[j]? = some q ∧ linkDistance p q < 120 := by
  unfold linkedIndices
  rw [List.mem_map]
  constructor
  · rintro ⟨⟨⟨i', p⟩, ⟨j', q⟩⟩, hmem, heq⟩
    rw [List.mem_filter] at hmem
    obtain ⟨hmem, hd⟩ := hmem
    obtain ⟨rfl, rfl⟩ := Prod.mk.inj heq
    obtain ⟨hlt, hp, hq⟩ := mem_examinedPairs.mp hmem
    exact ⟨hlt, p, q, hp, hq, of_decide_eq_true hd⟩
  · rintro ⟨hlt, p, q, hp, hq, hd⟩
    refine ⟨((i, p), (j, q)), ?_, rfl⟩
    rw [List.mem_filter]
    exact ⟨mem_examinedPairs.mpr ⟨hlt, hp, hq⟩, decide_eq_true hd⟩

theorem linked_unordered {ps : List Particle} {i j : ℕ} :
    ((i, j) ∈ linkedIndices ps ∨ (j, i) ∈ linkedIndices ps) ↔
      i ≠ j ∧ ∃ p q, ps[i]? = some p ∧ ps[j]? = some q ∧ linkDistance p q < 120 := by
  rw [mem_linkedIndices, mem_linkedIndices]
  constructor
  · rintro (⟨hlt, p, q, hp, hq, hd⟩ | ⟨hlt, q, p, hq, hp, hd⟩)
    · exact ⟨hlt.ne, p, q, hp, hq, hd⟩
    · exact ⟨hlt.ne', p, q, hp, hq, by rwa [linkDistance_comm]⟩
  · rintro ⟨hne, p, q, hp, hq, hd⟩
    rcases lt_or_gt_of_ne hne with hlt | hlt
    · exact Or.inl ⟨hlt, p, q, hp, hq, hd⟩
    · exact Or.inr ⟨hlt, q, p, hq, hp, by rwa [linkDistance_comm]⟩

theorem getElem?_reorder (ps : List Particle) (σ : Equiv.Perm (Fin ps.length))
    (i : Fin ps.length) :
    (List.ofFn fun k => ps.get (σ k))[i.1]? = ps[(σ i).1]? := by
  rw [List.getElem?_eq_getElem (by simp), List.getElem_ofFn,
    List.getElem?_eq_getElem (σ i).2]
  rfl

/-- Reordering the particle list by a permutation `σ` of its indices maps the
linked pairs onto each other. -/
theorem linkedIndices_reorder (ps : List Particle) (σ : Equiv.Perm (Fin ps.length))
    (i j : Fin ps.length) :
    ((i.1, j.1) ∈ linkedIndices (List.ofFn fun k => ps.get (σ k)) ∨
      (j.1, i.1) ∈ linkedIndices (List.ofFn fun k => ps.get (σ k))) ↔
    (((σ i).1, (σ j).1) ∈ linkedIndices ps ∨ ((σ j).1, (σ i).1) ∈ linkedIndices ps) := by
  rw [linked_unordered, linked_unordered, getElem?_reorder, getElem?_reorder]
  have hne : i.1 ≠ j.1 ↔ (σ i).1 ≠ (σ j).1 := by
    rw [Ne, Ne, Fin.val_inj, Fin.val_inj, σ.injective.eq_iff]
  rw [hne]

theorem mem_examinedPairs_indices {α : Type} (ps : List α) (i j : ℕ) :
    (i, j) ∈ (examinedPairs ps).map (fun pq => (pq.1.1, pq.2.1)) ↔
      i < j ∧ j < ps.length := by
  rw [examinedPairs_indices]
  simp only [List.mem_flatMap, List.mem_range, List.mem_map, List.mem_range'_1,
    Prod.mk.injEq]
  constructor
  · rintro ⟨a, ha, b, ⟨hb1, hb2⟩, rfl, rfl⟩
    omega
  · rintro ⟨h1, h2⟩
    exact ⟨i, by omega, j, ⟨by omega, by omega⟩, rfl, rfl⟩

/-- The distance of the linking pass is the Euclidean distance of the two
positions. -/
theorem linkDistance_eq_sqrt (p q : Particle) :
    linkDistance p q = Real.sqrt ((p.x - q.x) ^ 2 + (p.y - q.y) ^ 2) := by
  simp only [linkDistance]
  congr 1
  ring

theorem sqrt_lt_linkRadius (a : ℝ) : Real.sqrt a < 120 ↔ a < 120 ^ 2 :=
  Real.sqrt_lt' (by norm_num)

/-- C4: the linking pass of `animate` visits exactly the index pairs
`i < j < n`, each once, `n (n - 1) / 2` pairs in all (1770 for the 60
particles of the field); the distance it computes is the Euclidean distance
`sqrt ((p.x - q.x)² + (p.y - q.y)²)` and it strokes a link for a visited pair
exactly when that distance is `< 120`; and reordering the list by a
permutation of its indices maps the set of linked pairs onto itself. -/
theorem linkingPass_all_pairs (ps : List Particle) :
    (∀ i j : ℕ, (i, j) ∈ (examinedPairs ps).map (fun pq => (pq.1.1, pq.2.1)) ↔
      i < j ∧ j < ps.length) ∧
    ((examinedPairs ps).map fun pq => (pq.1.1, pq.2.1)).Nodup ∧
    (∀ (i j : ℕ) (p q : Particle), ((i, p), (j, q)) ∈ examinedPairs ps ↔
      i < j ∧ ps[i]? = some p ∧ ps[j]? = some q) ∧
    (examinedPairs ps).length = ps.length * (ps.length - 1) / 2 ∧
    (∀ (width height : ℝ) (rand : ℕ → ℝ),
      (examinedPairs (initParticles width height rand)).length = 1770) ∧
    (∀ p q : Particle,
      linkDistance p q = Real.sqrt ((p.x - q.x) ^ 2 + (p.y - q.y) ^ 2)) ∧
    (∀ p q : Particle, (linkBody p q).isSome ↔
      Real.sqrt ((p.x - q.x) ^ 2 + (p.y - q.y) ^ 2) < 120) ∧
    (∀ p q : Particle, (linkBody p q).isSome ↔
      (p.x - q.x) ^ 2 + (p.y - q.y) ^ 2 < 120 ^ 2) ∧
    (linkingPass ps =
      ((examinedPairs ps).filter fun pq =>
        Real.sqrt ((pq.1.2.x - pq.2.2.x) ^ 2 + (pq.1.2.y - pq.2.2.y) ^ 2) < 120).map fun pq =>
        { fromX := pq.1.2.x, fromY := pq.1.2.y, toX := pq.2.2.x, toY := pq.2.2.y
          opacity :=
            (120 - Real.sqrt ((pq.1.2.x - pq.2.2.x) ^ 2 + (pq.1.2.y - pq.2.2.y) ^ 2))
              / 120 * 0.15
          lineWidth := 0.5 }) ∧
    (∀ i j : ℕ, (i, j) ∈ linkedIndices ps ↔
      i < j ∧ ∃ p q, ps[i]? = some p ∧ ps[j]? = some q ∧
        Real.sqrt ((p.x - q.x) ^ 2 + (p.y - q.y) ^ 2) < 120) ∧
    (∀ i j : ℕ, (i, j) ∈ linkedIndices ps ↔
      i < j ∧ ∃ p q, ps[i]? = some p ∧ ps[j]? = some q ∧
        (p.x - q.x) ^ 2 + (p.y - q.y) ^ 2 < 120 ^ 2) ∧
    ∀ (σ : Equiv.Perm (Fin ps.length)) (i j : Fin ps.length),
      ((i.1, j.1) ∈ linkedIndices (List.ofFn fun k => ps.get (σ k)) ∨
        (j.1, i.1) ∈ linkedIndices (List.ofFn fun k => ps.get (σ k))) ↔
      (((σ i).1, (σ j).1) ∈ linkedIndices ps ∨ ((σ j).1, (σ i).1) ∈ linkedIndices ps) := by
  refine ⟨mem_examinedPairs_indices ps, nodup_examinedPairs_indices ps,
    fun _ _ _ _ => mem_examinedPairs, length_examinedPairs ps, ?_, linkDistance_eq_sqrt,
    ?_, ?_, ?_, ?_, ?_, linkedIndices_reorder ps⟩
  · intro width height rand
    rw [length_examinedPairs, length_initParticles]
  · intro p q
    rw [isSome_linkBody, linkDistance_eq_sqrt]
  · intro p q
    rw [isSome_linkBody, linkDistance_eq_sqrt, sqrt_lt_linkRadius]
  · rw [linkingPass_eq_map_filter]
    simp only [linkDistance_eq_sqrt, linkOpacity]
  · intro i j
    rw [mem_linkedIndices]
    simp only [linkDistance_eq_sqrt]
  · intro i j
    rw [mem_linkedIndices]
    simp only [linkDistance_eq_sqrt, sqrt_lt_linkRadius]

/-- Witness for C4: of the three particles at `(0, 0)`, `(30, 40)` and
`(300, 400)` the pass visits 3 pairs, links the first two (distance 50) and
does not link the first and the third (distance 500). -/
theorem linkingPass_all_pairs_witness :
    (examinedPairs [originParticle, nearParticle, farParticle]).length = 3 ∧
    (0, 1) ∈ linkedIndices [originParticle, nearParticle, farParticle] ∧
    (0, 2) ∉ linkedIndices [originParticle, nearParticle, farParticle] := by
  have h := linkingPass_all_pairs [originParticle, nearParticle, farParticle]
  refine ⟨h.2.2.2.1, ?_, ?_⟩
  · refine (h.2.2.2.2.2.2.2.2.2.2.1 0 1).mpr
      ⟨by norm_num, originParticle, nearParticle, rfl, rfl, ?_⟩
    norm_num [originParticle, nearParticle]
  · intro hmem
    obtain ⟨_, p, q, hp, hq, hd⟩ := (h.2.2.2.2.2.2.2.2.2.2.1 0 2).mp hmem
    have hp1 : originParticle = p := by simpa using hp
    have hq1 : farParticle = q := by simpa using hq
    subst hp1 hq1
    norm_num [originParticle, farParticle] at hd

/-! ## Line field: the grid and the cursor at the centre -/

theorem mem_gridFrom (limit : ℝ) (fuel : ℕ) (start x : ℝ) :
    x ∈ gridFrom limit fuel start ↔
      ∃ k : ℕ, k < fuel ∧ x = start + k * gridSize ∧ x < limit := by
  induction fuel generalizing start with
  | zero => simp [gridFrom]
  | succ fuel ih =>
    unfold gridFrom
    by_cases h : start < limit
    · rw [if_pos h, List.mem_cons, ih]
      constructor
      · rintro (rfl | ⟨k, hk, rfl, hx⟩)
        · exact ⟨0, Nat.succ_pos _, by simp, h⟩
        · exact ⟨k + 1, Nat.succ_lt_succ hk, by push_cast; ring, hx⟩
      · rintro ⟨k, hk, rfl, hx⟩
        cases k with
        | zero => left; simp
        | succ k =>
          right
          exact ⟨k, Nat.lt_of_succ_lt_succ hk, by push_cast; ring, hx⟩
    · rw [if_neg h]
      simp only [List.not_mem_nil, false_iff, not_exists, not_and, not_lt]
      rintro k _ rfl
      have : (0 : ℝ) ≤ k * gridSize :=
        mul_nonneg (Nat.cast_nonneg k) (by norm_num [gridSize])
      linarith [not_lt.mp h]

/-- The loop over one axis visits exactly the multiples of `gridSize` below
the limit: the fuel of `gridAxis` never cuts the loop short. -/
theorem mem_gridAxis (limit x : ℝ) :
    x ∈ gridAxis limit ↔ ∃ k : ℕ, x = k * gridSize ∧ x < limit := by
  unfold gridAxis
  rw [mem_gridFrom]
  constructor
  · rintro ⟨k, _, hx, hlt⟩
    exact ⟨k, by rw [hx]; ring, hlt⟩
  · rintro ⟨k, hx, hlt⟩
    refine ⟨k, ?_, by rw [hx]; ring, hlt⟩
    rw [Nat.lt_ceil, lt_div_iff₀ (by norm_num [gridSize])]
    rw [hx] at hlt
    exact hlt

theorem mem_gridCells (width height x y : ℝ) :
    (x, y) ∈ gridCells width height ↔ x ∈ gridAxis width ∧ y ∈ gridAxis height := by
  unfold gridCells
  simp only [List.mem_flatMap, List.mem_map, Prod.mk.injEq]
  constructor
  · rintro ⟨a, ha, b, hb, rfl, rfl⟩
    exact ⟨ha, hb⟩
  · rintro ⟨hx, hy⟩
    exact ⟨x, hx, y, hy, rfl, rfl⟩

/-- On a positive extent some grid line lies within half a cell of the middle
of the canvas. -/
theorem exists_gridAxis_near_half (extent : ℝ) (h : 0 < extent) :
    ∃ x ∈ gridAxis extent, -60 ≤ x + gridSize / 2 - extent / 2 ∧
      x + gridSize / 2 - extent / 2 ≤ 60 := by
  have h0 : 0 ≤ extent / 240 := by positivity
  have h1 := Nat.floor_le h0
  have h2 := Nat.lt_floor_add_one (extent / 240)
  rw [le_div_iff₀ (by norm_num)] at h1
  rw [div_lt_iff₀ (by norm_num)] at h2
  refine ⟨(⌊extent / 240⌋₊ : ℝ) * gridSize, (mem_gridAxis _ _).mpr ⟨_, rfl, ?_⟩, ?_, ?_⟩ <;>
    norm_num [gridSize] <;> linarith

theorem cellDistance_origin (width height x y : ℝ) :
    cellDistance width height Signal.origin x y =
      Real.sqrt ((x + gridSize / 2 - width / 2) ^ 2 + (y + gridSize / 2 - height / 2) ^ 2) := by
  simp only [cellDistance, Signal.origin, project]
  congr 1
  ring

theorem exists_cell_near_centre (width height : ℝ) (hw : 0 < width) (hh : 0 < height) :
    ∃ c ∈ gridCells width height,
      cellDistance width height Signal.origin c.1 c.2 < maxDistance := by
  obtain ⟨x, hx, hx1, hx2⟩ := exists_gridAxis_near_half width hw
  obtain ⟨y, hy, hy1, hy2⟩ := exists_gridAxis_near_half height hh
  refine ⟨(x, y), (mem_gridCells _ _ _ _).mpr ⟨hx, hy⟩, ?_⟩
  rw [cellDistance_origin, Real.sqrt_lt' (by norm_num [maxDistance])]
  have e1 : (x + gridSize / 2 - width / 2) ^ 2 ≤ 3600 := by nlinarith
  have e2 : (y + gridSize / 2 - height / 2) ^ 2 ≤ 3600 := by nlinarith
  norm_num [maxDistance]
  linarith

theorem exists_min_of_ne_nil {α : Type} (f : α → ℝ) (l : List α) (h : l ≠ []) :
    ∃ a ∈ l, ∀ b ∈ l, f a ≤ f b := by
  induction l with
  | nil => exact absurd rfl h
  | cons a l ih =>
    by_cases hl : l = []
    · subst hl
      exact ⟨a, List.mem_cons_self _ _, fun b hb => by
        rw [List.mem_singleton] at hb
        rw [hb]⟩
    · obtain ⟨m, hm, hmin⟩ := ih hl
      by_cases hle : f a ≤ f m
      · refine ⟨a, List.mem_cons_self _ _, fun b hb => ?_⟩
        rcases List.mem_cons.mp hb with rfl | hb
        · exact le_rfl
        · exact hle.trans (hmin b hb)
      · refine ⟨m, List.mem_cons_of_mem _ hm, fun b hb => ?_⟩
        rcases List.mem_cons.mp hb with rfl | hb
        · exact (not_le.mp hle).le
        · exact hmin b hb

theorem handleMouseMove_centre (innerWidth innerHeight : ℝ) (hw : 0 < innerWidth)
    (hh : 0 < innerHeight) :
    handleMouseMove (innerWidth / 2) (innerHeight / 2) innerWidth innerHeight =
      Signal.origin := by
  have e1 : innerWidth / 2 / innerWidth * 2 - 1 = 0 := by
    field_simp
    ring
  have e2 : innerHeight / 2 / innerHeight * 2 - 1 = 0 := by
    field_simp
    ring
  simp only [handleMouseMove, Signal.origin, e1, e2]

/-- C8: with the pointer at the centre of the viewport `handleMouseMove`
publishes `(0, 0)`, which `drawLines` projects to `(width / 2, height / 2)`;
on every positive canvas the grid has a cell nearest to that point, and every
nearest cell is drawn (distance `< 180`) with an intensity, alpha and line
width that no cell, and no glyph of the frame, exceeds. -/
theorem centre_cells_max_intensity (innerWidth innerHeight width height : ℝ)
    (hiw : 0 < innerWidth) (hih : 0 < innerHeight) (hw : 0 < width) (hh : 0 < height) :
    handleMouseMove (innerWidth / 2) (innerHeight / 2) innerWidth innerHeight
      = Signal.origin ∧
    project Signal.origin.x width = width / 2 ∧
    project Signal.origin.y height = height / 2 ∧
    (∃ c ∈ gridCells width height, ∀ c' ∈ gridCells width height,
      cellDistance width height Signal.origin c.1 c.2 ≤
        cellDistance width height Signal.origin c'.1 c'.2) ∧
    ∀ c ∈ gridCells width height,
      (∀ c' ∈ gridCells width height,
        cellDistance width height Signal.origin c.1 c.2 ≤
          cellDistance width height Signal.origin c'.1 c'.2) →
      cellDistance width height Signal.origin c.1 c.2 < maxDistance ∧
      (∀ c' ∈ gridCells width height,
        intensity (cellDistance width height Signal.origin c'.1 c'.2) ≤
          intensity (cellDistance width height Signal.origin c.1 c.2) ∧
        alpha (cellDistance width height Signal.origin c'.1 c'.2) ≤
          alpha (cellDistance width height Signal.origin c.1 c.2) ∧
        lineWidth (cellDistance width height Signal.origin c'.1 c'.2) ≤
          lineWidth (cellDistance width height Signal.origin c.1 c.2)) ∧
      ∃ g, drawCell width height Signal.origin c.1 c.2 = some g ∧
        g ∈ drawLines width height Signal.origin ∧
        g.alpha = alpha (cellDistance width height Signal.origin c.1 c.2) ∧
        g.lineWidth = lineWidth (cellDistance width height Signal.origin c.1 c.2) ∧
        ∀ g' ∈ drawLines width height Signal.origin,
          g'.alpha ≤ g.alpha ∧ g'.lineWidth ≤ g.lineWidth ∧ g'.shadowBlur ≤ g.shadowBlur := by
  obtain ⟨c0, hc0, hd0⟩ := exists_cell_near_centre width height hw hh
  refine ⟨handleMouseMove_centre innerWidth innerHeight hiw hih, by simp [project, Signal.origin],
    by simp [project, Signal.origin],
    exists_min_of_ne_nil _ _ (List.ne_nil_of_mem hc0), ?_⟩
  intro c hc hmin
  have hd : cellDistance width height Signal.origin c.1 c.2 < maxDistance :=
    lt_of_le_of_lt (hmin c0 hc0) hd0
  refine ⟨hd, fun c' hc' => ⟨intensity_anti (hmin c' hc'), alpha_anti (hmin c' hc'),
    lineWidth_anti (hmin c' hc')⟩, ?_⟩
  have hg : drawCell width height Signal.origin c.1 c.2 = some
      { centerX := c.1 + gridSize / 2
        centerY := c.2 + gridSize / 2
        alpha := alpha (cellDistance width height Signal.origin c.1 c.2)
        lineWidth := lineWidth (cellDistance width height Signal.origin c.1 c.2)
        shadowBlur := intensity (cellDistance width height Signal.origin c.1 c.2) * 5 } := by
    simp only [drawCell, hd, if_true]
  refine ⟨_, hg, mem_drawLines.mpr ⟨c, hc, hg⟩, rfl, rfl, ?_⟩
  intro g' hg'
  obtain ⟨c', hc', hcg⟩ := mem_drawLines.mp hg'
  have hd' : cellDistance width height Signal.origin c'.1 c'.2 < maxDistance :=
    (drawCell_eq_some hcg).1
  simp only [drawCell, hd', if_true, Option.some.injEq] at hcg
  subst hcg
  refine ⟨alpha_anti (hmin c' hc'), lineWidth_anti (hmin c' hc'), ?_⟩
  show intensity _ * 5 ≤ intensity _ * 5
  linarith [intensity_anti (hmin c' hc')]

/-- Witness for C8: a 1280 × 720 viewport and a 240 × 120 canvas. -/
theorem centre_cells_max_intensity_witness :
    ((0 : ℝ) < 1280 ∧ (0 : ℝ) < 720 ∧ (0 : ℝ) < 240 ∧ (0 : ℝ) < 120) ∧
    handleMouseMove (1280 / 2) (720 / 2) 1280 720 = Signal.origin ∧
    ∃ c ∈ gridCells 240 120, ∀ c' ∈ gridCells 240 120,
      cellDistance 240 120 Signal.origin c.1 c.2 ≤
        cellDistance 240 120 Signal.origin c'.1 c'.2 :=
  have h := centre_cells_max_intensity 1280 720 240 120 (by norm_num) (by norm_num)
    (by norm_num) (by norm_num)
  ⟨by norm_num, h.1, h.2.2.2.1⟩

/-! ## Particle field: what changes the particles -/

namespace Particle

theorem update_size (width height : ℝ) (m : Signal) (p : Particle) :
    (update width height m p).size = p.size := by
  unfold update nudge
  dsimp only
  split_ifs <;> rfl

theorem update_opacity (width height : ℝ) (m : Signal) (p : Particle) :
    (update width height m p).opacity = p.opacity := by
  unfold update nudge
  dsimp only
  split_ifs <;> rfl

theorem update_hue (width height : ℝ) (m : Signal) (p : Particle) :
    (update width height m p).hue = p.hue := by
  unfold update nudge
  dsimp only
  split_ifs <;> rfl

end Particle

theorem head_size_particlesEffect (rand : ℕ → ℝ) (s : FieldState)
    (h : s.isLoading = false) :
    (particlesEffect rand s).particles[0]?.map Particle.size =
      some (rand (s.randomCalls + 2) * 2 + 0.5) := by
  simp [particlesEffect, h, animate, updateAll, initParticles, Particle.update_size,
    Particle.new]

theorem length_particlesEffect (rand : ℕ → ℝ) (s : FieldState)
    (h : s.isLoading = false) : (particlesEffect rand s).particles.length = 60 := by
  simp [particlesEffect, h, animate, updateAll, initParticles]

/-- Events other than a pointer move keep the length of the collection, the
size, opacity and hue of every particle and the count of random calls. -/
theorem step_keeps_collection (rand : ℕ → ℝ) (s : FieldState) (e : Event)
    (he : ∀ clientX clientY : ℝ, e ≠ Event.mouseMove clientX clientY) :
    (step rand s e).particles.length = s.particles.length ∧
    (step rand s e).particles.map Particle.size = s.particles.map Particle.size ∧
    (step rand s e).particles.map Particle.opacity = s.particles.map Particle.opacity ∧
    (step rand s e).particles.map Particle.hue = s.particles.map Particle.hue ∧
    (step rand s e).randomCalls = s.randomCalls := by
  cases e with
  | loaded => exact ⟨rfl, rfl, rfl, rfl, rfl⟩
  | resize innerWidth innerHeight =>
    unfold step
    split_ifs <;> exact ⟨rfl, rfl, rfl, rfl, rfl⟩
  | mouseMove clientX clientY => exact absurd rfl (he clientX clientY)
  | frame =>
    unfold step
    split_ifs
    · refine ⟨?_, ?_, ?_, ?_, rfl⟩
      · simp [animate, updateAll]
      · simp [animate, updateAll, Function.comp_def, Particle.update_size]
      · simp [animate, updateAll, Function.comp_def, Particle.update_opacity]
      · simp [animate, updateAll, Function.comp_def, Particle.update_hue]
    · exact ⟨rfl, rfl, rfl, rfl, rfl⟩

theorem run_keeps_collection (rand : ℕ → ℝ) (s : FieldState) (events : List Event)
    (he : ∀ e ∈ events, ∀ clientX clientY : ℝ, e ≠ Event.mouseMove clientX clientY) :
    (run rand s events).particles.length = s.particles.length ∧
    (run rand s events).particles.map Particle.size = s.particles.map Particle.size ∧
    (run rand s events).particles.map Particle.opacity = s.particles.map Particle.opacity ∧
    (run rand s events).particles.map Particle.hue = s.particles.map Particle.hue ∧
    (run rand s events).randomCalls = s.randomCalls := by
  induction events generalizing s with
  | nil => exact ⟨rfl, rfl, rfl, rfl, rfl⟩
  | cons e es ih =>
    have h1 := step_keeps_collection rand s e (he e (List.mem_cons_self _ _))
    have h2 := ih (step rand s e) fun e' he' => he e' (List.mem_cons_of_mem _ he')
    rw [run, List.foldl_cons]
    rw [run] at h2
    exact ⟨h2.1.trans h1.1, h2.2.1.trans h1.2.1, h2.2.2.1.trans h1.2.2.1,
      h2.2.2.2.1.trans h1.2.2.2.1, h2.2.2.2.2.trans h1.2.2.2.2⟩

/-- While the loading screen is shown no event builds a particle. -/
theorem step_while_loading (rand : ℕ → ℝ) (s : FieldState) (e : Event)
    (he : e ≠ Event.loaded)
    (hs : s.isLoading = true ∧ s.running = false ∧ s.particles = []) :
    (step rand s e).isLoading = true ∧ (step rand s e).running = false ∧
      (step rand s e).particles = [] := by
  obtain ⟨h1, h2, h3⟩ := hs
  cases e with
  | loaded => exact absurd rfl he
  | resize innerWidth innerHeight => simp [step, h1, h2, h3]
  | mouseMove clientX clientY => simp [step, particlesEffect, h1]
  | frame => simp [step, h1, h2, h3]

theorem run_while_loading (rand : ℕ → ℝ) (s : FieldState) (events : List Event)
    (he : ∀ e ∈ events, e ≠ Event.loaded)
    (hs : s.isLoading = true ∧ s.running = false ∧ s.particles = []) :
    (run rand s events).isLoading = true ∧ (run rand s events).running = false ∧
      (run rand s events).particles = [] := by
  induction events generalizing s with
  | nil => exact hs
  | cons e es ih =>
    rw [run, List.foldl_cons]
    exact ih (step rand s e) (fun e' he' => he e' (List.mem_cons_of_mem _ he'))
      (step_while_loading rand s e (he e (List.mem_cons_self _ _)) hs)

/-- A running field has 60 particles and is past the loading screen; a field
that is not running has none. -/
theorem step_population (rand : ℕ → ℝ) (s : FieldState) (e : Event)
    (hs : (s.running = true → s.particles.length = 60 ∧ s.isLoading = false) ∧
      (s.running = false → s.particles = [])) :
    ((step rand s e).running = true →
      (step rand s e).particles.length = 60 ∧ (step rand s e).isLoading = false) ∧
    ((step rand s e).running = false → (step rand s e).particles = []) := by
  obtain ⟨h1, h2⟩ := hs
  cases e with
  | loaded =>
    exact ⟨fun h => ⟨(h1 h).1, rfl⟩, fun h => h2 h⟩
  | resize innerWidth innerHeight =>
    unfold step
    split_ifs <;> exact ⟨fun h => h1 h, fun h => h2 h⟩
  | mouseMove clientX clientY =>
    unfold step particlesEffect
    by_cases hl : s.isLoading = true
    · simp [hl]
    · simp [hl, animate, updateAll, initParticles]
  | frame =>
    unfold step
    by_cases hr : s.running = true
    · rw [if_pos hr]
      refine ⟨fun _ => ⟨?_, (h1 hr).2⟩, fun h => ?_⟩
      · simpa [animate, updateAll] using (h1 hr).1
      · exact absurd hr (by simpa using h)
    · rw [if_neg hr]
      exact ⟨fun h => h1 h, fun h => h2 h⟩

theorem run_population (rand : ℕ → ℝ) (s : FieldState) (events : List Event)
    (hs : (s.running = true → s.particles.length = 60 ∧ s.isLoading = false) ∧
      (s.running = false → s.particles = [])) :
    ((run rand s events).running = true →
      (run rand s events).particles.length = 60 ∧ (run rand s events).isLoading = false) ∧
    ((run rand s events).running = false → (run rand s events).particles = []) := by
  induction events generalizing s with
  | nil => exact hs
  | cons e es ih =>
    rw [run, List.foldl_cons]
    exact ih (step rand s e) (step_population rand s e hs)

theorem randomCalls_particlesEffect (rand : ℕ → ℝ) (s : FieldState)
    (h : s.isLoading = false) :
    (particlesEffect rand s).randomCalls = s.randomCalls + 420 ∧
      (particlesEffect rand s).isLoading = false := by
  simp [particlesEffect, h]

theorem randomCalls_step_mouseMove (rand : ℕ → ℝ) (s : FieldState)
    (clientX clientY : ℝ) (h : s.isLoading = false) :
    (step rand s (Event.mouseMove clientX clientY)).randomCalls = s.randomCalls + 420 ∧
      (step rand s (Event.mouseMove clientX clientY)).isLoading = false :=
  randomCalls_particlesEffect rand
    { s with mousePosition := handleMouseMove clientX clientY s.innerWidth s.innerHeight } h

theorem head_size_step_mouseMove (rand : ℕ → ℝ) (s : FieldState) (clientX clientY : ℝ)
    (h : s.isLoading = false) :
    (step rand s (Event.mouseMove clientX clientY)).particles[0]?.map Particle.size =
      some (rand (s.randomCalls + 2) * 2 + 0.5) :=
  head_size_particlesEffect rand _ h

/-- C9 (as stated) fails for pointer moves: in an 800 × 600 window with the
random stream `1 / (i + 2)`, after the loading screen has gone and a first
pointer move the field has 60 particles, the first of size 1; a second
pointer move at the same place replaces the collection, and the first
particle then has size `107 / 212`. -/
theorem mouseMove_recreates_particles :
    (run harmonicRand (mount 800 600)
      [Event.loaded, Event.mouseMove 400 300]).particles.length = 60 ∧
    (run harmonicRand (mount 800 600)
      [Event.loaded, Event.mouseMove 400 300]).particles[0]?.map Particle.size = some 1 ∧
    (run harmonicRand (mount 800 600)
      [Event.loaded, Event.mouseMove 400 300, Event.mouseMove 400 300]).particles[0]?.map
        Particle.size = some (107 / 212) ∧
    (run harmonicRand (mount 800 600)
      [Event.loaded, Event.mouseMove 400 300, Event.mouseMove 400 300]).particles ≠
    (run harmonicRand (mount 800 600)
      [Event.loaded, Event.mouseMove 400 300]).particles := by
  have h0 : (run harmonicRand (mount 800 600)
      [Event.loaded, Event.mouseMove 400 300]).particles.length = 60 := by
    simp only [run, List.foldl_cons, List.foldl_nil, step]
    exact length_particlesEffect _ _ rfl
  have h1 : (run harmonicRand (mount 800 600)
      [Event.loaded, Event.mouseMove 400 300]).particles[0]?.map Particle.size = some 1 := by
    simp only [run, List.foldl_cons, List.foldl_nil, step]
    rw [head_size_particlesEffect _ _ rfl]
    norm_num [harmonicRand, mount]
  have h2 : (run harmonicRand (mount 800 600)
      [Event.loaded, Event.mouseMove 400 300, Event.mouseMove 400 300]).particles[0]?.map
        Particle.size = some (107 / 212) := by
    have e : run harmonicRand (mount 800 600)
        [Event.loaded, Event.mouseMove 400 300, Event.mouseMove 400 300] =
        step harmonicRand (run harmonicRand (mount 800 600)
          [Event.loaded, Event.mouseMove 400 300]) (Event.mouseMove 400 300) := rfl
    have hl : (run harmonicRand (mount 800 600)
        [Event.loaded, Event.mouseMove 400 300]).isLoading = false :=
      (randomCalls_step_mouseMove harmonicRand
        (step harmonicRand (mount 800 600) Event.loaded) 400 300 rfl).2
    have hr : (run harmonicRand (mount 800 600)
        [Event.loaded, Event.mouseMove 400 300]).randomCalls = 0 + 420 :=
      (randomCalls_step_mouseMove harmonicRand
        (step harmonicRand (mount 800 600) Event.loaded) 400 300 rfl).1
    rw [e, head_size_step_mouseMove _ _ _ _ hl, hr]
    norm_num [harmonicRand]
  refine ⟨h0, h1, h2, fun h => ?_⟩
  rw [h, h1] at h2
  norm_num at h2

/-- C9 (amended): the collection is built by the particles effect whenever it
runs with the canvas present. No particle exists at mount or while the
loading screen is shown; once loading has ended every pointer move replaces
the collection by 60 newly constructed particles (from the next 420 random
numbers, updated once by the direct call of `animate`); at every moment the
field holds 60 particles if its loop runs and none otherwise. A resize event
leaves the collection untouched, a frame maps `update` over it, and along any
sequence of events without a pointer move the collection keeps its length,
every particle keeps its size, opacity and hue, and no constructor runs. -/
theorem particles_under_events (rand : ℕ → ℝ) (s : FieldState)
    (innerWidth innerHeight : ℕ) :
    (mount innerWidth innerHeight).particles = [] ∧
    (∀ events : List Event, (∀ e ∈ events, e ≠ Event.loaded) →
      (run rand (mount innerWidth innerHeight) events).particles = []) ∧
    (∀ events : List Event,
      ((run rand (mount innerWidth innerHeight) events).running = true →
        (run rand (mount innerWidth innerHeight) events).particles.length = 60 ∧
        (run rand (mount innerWidth innerHeight) events).isLoading = false) ∧
      ((run rand (mount innerWidth innerHeight) events).running = false →
        (run rand (mount innerWidth innerHeight) events).particles = [])) ∧
    (∀ clientX clientY : ℝ, s.isLoading = false →
      (step rand s (Event.mouseMove clientX clientY)).particles =
        updateAll s.innerWidth s.innerHeight
          (handleMouseMove clientX clientY s.innerWidth s.innerHeight)
          (initParticles s.innerWidth s.innerHeight fun i => rand (s.randomCalls + i)) ∧
      (step rand s (Event.mouseMove clientX clientY)).particles.length = 60 ∧
      (step rand s (Event.mouseMove clientX clientY)).randomCalls = s.randomCalls + 420) ∧
    (∀ clientX clientY : ℝ, s.isLoading = true →
      (step rand s (Event.mouseMove clientX clientY)).particles = []) ∧
    (∀ w h : ℕ,
      (step rand s (Event.resize w h)).particles = s.particles ∧
      (step rand s (Event.resize w h)).mousePosition = s.mousePosition ∧
      (step rand s (Event.resize w h)).randomCalls = s.randomCalls) ∧
    ((step rand s Event.frame).particles =
      if s.running then
        s.particles.map (Particle.update s.canvasWidth s.canvasHeight s.mousePosition)
      else s.particles) ∧
    ∀ events : List Event,
      (∀ e ∈ events, ∀ clientX clientY : ℝ, e ≠ Event.mouseMove clientX clientY) →
      (run rand s events).particles.length = s.particles.length ∧
      (run rand s events).particles.map Particle.size = s.particles.map Particle.size ∧
      (run rand s events).particles.map Particle.opacity =
        s.particles.map Particle.opacity ∧
      (run rand s events).particles.map Particle.hue = s.particles.map Particle.hue ∧
      (run rand s events).randomCalls = s.randomCalls := by
  refine ⟨rfl, fun events he => (run_while_loading rand _ events he ⟨rfl, rfl, rfl⟩).2.2,
    fun events => run_population rand _ events ⟨fun h => absurd h (by simp [mount]),
      fun _ => rfl⟩, ?_, ?_, ?_, ?_, fun events he => run_keeps_collection rand s events he⟩
  · intro clientX clientY hl
    refine ⟨?_, ?_, ?_⟩
    · simp [step, particlesEffect, hl, animate]
    · exact length_particlesEffect rand _ hl
    · exact (randomCalls_step_mouseMove rand s clientX clientY hl).1
  · intro clientX clientY hl
    simp [step, particlesEffect, hl]
  · intro w h
    unfold step
    split_ifs <;> exact ⟨rfl, rfl, rfl⟩
  · unfold step
    split_ifs <;> rfl

/-- Witness for C9 (amended): in an 800 × 600 window, a pointer move and a
frame during loading leave the field empty; a resize and a frame after the
first pointer move past loading keep the 60 particles. -/
theorem particles_under_events_witness :
    (run harmonicRand (mount 800 600)
      [Event.mouseMove 400 300, Event.frame]).particles = [] ∧
    (run harmonicRand
      (run harmonicRand (mount 800 600) [Event.loaded, Event.mouseMove 400 300])
      [Event.resize 1024 768, Event.frame]).particles.length =
      (run harmonicRand (mount 800 600)
        [Event.loaded, Event.mouseMove 400 300]).particles.length :=
  have h := particles_under_events harmonicRand
    (run harmonicRand (mount 800 600) [Event.loaded, Event.mouseMove 400 300])
    800 600
  ⟨h.2.1 [Event.mouseMove 400 300, Event.frame] (by simp),
    (h.2.2.2.2.2.2.2 [Event.resize 1024 768, Event.frame] (by simp)).1⟩

end Igloo

end
